import Mathlib

/-!
Verification of the course-advisor matching engine and profile normalizer.

The definitions below are a shallow embedding of `src/rag_system.py`
(class `CourseRAG`) and `src/user_input.py` (class `UserProfileProcessor`).
Python strings are modelled as Lean `String`; Python `str.lower()` is
modelled on its ASCII range (the catalog and all lookup tables are ASCII);
Python dictionaries used as fixed lookup tables are modelled as association
lists in insertion order (Python 3.7+ iteration order).
-/

/-- Python whitespace class used by `str.strip()` / `str.split()` / `\s`. -/
def pySpace (c : Char) : Bool :=
  c = ' ' || c = '\t' || c = '\n' || c = '\r' || c = '\x0b' || c = '\x0c'

/-- ASCII lowercasing of a single character (Python `str.lower()` on ASCII). -/
def lowerChar (c : Char) : Char :=
  if 65 ≤ c.toNat ∧ c.toNat ≤ 90 then Char.ofNat (c.toNat + 32) else c

/-- Python `s.lower()` (ASCII range). -/
def pyLower (s : String) : String := ⟨s.toList.map lowerChar⟩

/-- Python `s.strip()`: drop leading and trailing whitespace. -/
def pyStrip (s : String) : String :=
  ⟨((s.toList.dropWhile pySpace).reverse.dropWhile pySpace).reverse⟩

/-- Contiguous-subsequence test on character lists (Python `a in b` on strings). -/
def containsSeq (n : List Char) : List Char → Bool
  | [] => n.isEmpty
  | c :: t => n.isPrefixOf (c :: t) || containsSeq n t

/-- Python substring membership `needle in hay`. -/
def pyIn (needle hay : String) : Bool := containsSeq needle.toList hay.toList

/-- Python `s[:n]` (first `n` characters). -/
def strTake (n : Nat) (s : String) : String := ⟨s.toList.take n⟩

/-- Python `s[n:]` (drop first `n` characters). -/
def strDrop (n : Nat) (s : String) : String := ⟨s.toList.drop n⟩

/-- Helper for `pyTitle`: the Bool records whether the previous character
was alphabetic (cased). -/
def pyTitleAux : Bool → List Char → List Char
  | _, [] => []
  | prev, c :: cs =>
    if c.isAlpha then
      (if prev then c.toLower else c.toUpper) :: pyTitleAux true cs
    else
      c :: pyTitleAux false cs

/-- Python `s.title()`: first alphabetic character of each run uppercased,
subsequent alphabetic characters lowercased. -/
def pyTitle (s : String) : String := ⟨pyTitleAux false s.toList⟩

/-- Python `s.split()` helper: accumulate the current token (reversed). -/
def splitWsAux : List Char → List Char → List (List Char)
  | [], cur => [cur.reverse]
  | c :: cs, cur =>
    if pySpace c then cur.reverse :: splitWsAux cs []
    else splitWsAux cs (c :: cur)

/-- Python `s.split()` with no argument: split on whitespace runs, no empties. -/
def pySplitWs (s : String) : List String :=
  ((splitWsAux s.toList []).filter (fun l => !l.isEmpty)).map (fun l => ⟨l⟩)

/-- A course record from the catalog (`course_catalog.json` entries); only the
fields read by the matching engine are modelled. -/
structure Course where
  id : String
  title : String
  description : String
  category : String
  level : String
  keywords : List String
  deriving DecidableEq

/-- A normalized user profile (output of `process_user_input`). -/
structure UserProfile where
  education_level : String
  interests : List String
  career_goal : String
  preferred_categories : List String
  additional_info : String
  deriving DecidableEq

namespace CourseRAG

/-- `level_map` of `search_courses_by_level`. -/
def level_map : List (String × String) :=
  [("freshman", "1st year"), ("first year", "1st year"), ("1st year", "1st year"),
   ("sophomore", "2nd year"), ("second year", "2nd year"), ("2nd year", "2nd year"),
   ("junior", "3rd year"), ("third year", "3rd year"), ("3rd year", "3rd year"),
   ("senior", "4th year"), ("fourth year", "4th year"), ("4th year", "4th year"),
   ("graduate", "graduate"), ("grad", "graduate"), ("masters", "graduate"),
   ("phd", "graduate")]

/-- `CourseRAG.search_courses_by_level`. -/
def search_courses_by_level (courses : List Course) (level : String) : List Course :=
  let normalized := ((level_map.find? (fun q => q.1 == pyLower level)).map Prod.snd).getD level
  courses.filter (fun c => pyLower c.level == pyLower normalized)

/-- `interest_mapping` of `search_courses_by_keywords` (checkbox-style
interests to course-relevant keywords). -/
def interest_mapping : List (String × List String) :=
  [("AI/ML", ["artificial intelligence", "machine learning", "data science", "computer science"]),
   ("Web Dev", ["web", "programming", "computer science", "development"]),
   ("Security", ["security", "computer science", "networking"]),
   ("Data Science", ["data", "statistics", "mathematics", "computer science", "analysis"]),
   ("Mobile Dev", ["mobile", "programming", "computer science", "development"]),
   ("Game Dev", ["game", "programming", "computer science", "development"]),
   ("Entrepreneurship", ["business", "entrepreneurship", "management"]),
   ("Management", ["business", "management", "leadership"]),
   ("Business Strategy", ["business", "strategy", "management"]),
   ("Finance/Accounting", ["finance", "accounting", "business", "economics"]),
   ("Biology/Biotech", ["biology", "science", "biotechnology"]),
   ("Chemistry", ["chemistry", "science"]),
   ("Mathematics", ["mathematics", "statistics", "calculus"]),
   ("Physics", ["physics", "science"]),
   ("Nursing", ["nursing", "healthcare", "medical"]),
   ("Healthcare", ["healthcare", "medical", "health"]),
   ("Psychology", ["psychology", "social", "behavior"]),
   ("Communication", ["communication", "media", "writing"]),
   ("Education", ["education", "teaching", "learning"]),
   ("History/Humanities", ["history", "humanities", "literature"]),
   ("UI/UX Design", ["design", "art", "creative", "computer"]),
   ("Music", ["music", "performance", "creative"]),
   ("Visual Arts", ["art", "visual", "creative", "design"]),
   ("Theatre Arts", ["theatre", "performance", "art", "creative"])]

/-- Keyword expansion step of `search_courses_by_keywords`: each keyword is
appended lowercased, followed by its `interest_mapping` synonyms (looked up
under the original, case-preserved keyword). -/
def expandKeywords (keywords : List String) : List String :=
  keywords.flatMap (fun k =>
    pyLower k :: (((interest_mapping.find? (fun q => q.1 == k)).map Prod.snd).getD []))

/-- The combined lowercase search text of a course (title, description,
category, and space-joined keyword list). -/
def searchText (c : Course) : String :=
  pyLower c.title ++ " " ++ pyLower c.description ++ " " ++ pyLower c.category
    ++ " " ++ pyLower (" ".intercalate c.keywords)

/-- The scoring loop of `search_courses_by_keywords`: for each expanded
keyword present in the search text, +3 on a title match, else +2 on a
description match, else +1. -/
def keywordScore (c : Course) (expanded : List String) : Nat :=
  expanded.foldl (fun score kw0 =>
    let kw := pyStrip (pyLower kw0)
    if pyIn kw (searchText c) then
      if pyIn kw (pyLower c.title) then score + 3
      else if pyIn kw (pyLower c.description) then score + 2
      else score + 1
    else score) 0

/-- The positively scored courses, paired with their scores, in catalog order
(`scored_courses` in the source). -/
def scoredList (courses : List Course) (keywords : List String) : List (Course × Nat) :=
  (courses.map (fun c => (c, keywordScore c (expandKeywords keywords)))).filter
    (fun q => decide (0 < q.2))

/-- Stable insertion for a descending sort by score: an element is placed
before the first element whose score is not greater, so equal scores keep
the original (catalog) order — the behaviour of Python's stable
`list.sort(key=..., reverse=True)`. -/
def pyInsDesc (x : Course × Nat) : List (Course × Nat) → List (Course × Nat)
  | [] => [x]
  | y :: ys => if x.2 < y.2 then y :: pyInsDesc x ys else x :: y :: ys

/-- Stable sort by score descending (Python `sort(key=lambda x: x[1], reverse=True)`). -/
def pySortDesc (l : List (Course × Nat)) : List (Course × Nat) :=
  l.foldr pyInsDesc []

/-- `CourseRAG.search_courses_by_keywords` (its Python default for
`max_results` is 10; callers relying on the default pass 10 explicitly here). -/
def search_courses_by_keywords (courses : List Course) (keywords : List String)
    (max_results : Nat) : List Course :=
  ((pySortDesc (scoredList courses keywords)).take max_results).map Prod.fst

/-- `category_map` of `search_courses_by_category`. -/
def category_map : List (String × List String) :=
  [("business", ["Business", "MBA"]),
   ("science", ["Natural Sciences", "Computer Science"]),
   ("computer science", ["Computer Science"]),
   ("cs", ["Computer Science"]),
   ("programming", ["Computer Science"]),
   ("health", ["Health Sciences", "Nursing"]),
   ("nursing", ["Nursing"]),
   ("medical", ["Health Sciences"]),
   ("medicine", ["Health Sciences"]),
   ("education", ["Education"]),
   ("teaching", ["Education"]),
   ("music", ["Music"]),
   ("art", ["Fine Arts"]),
   ("english", ["Humanities"]),
   ("literature", ["Humanities"]),
   ("history", ["Humanities"]),
   ("psychology", ["Social Sciences"]),
   ("math", ["Mathematics"]),
   ("mathematics", ["Mathematics"]),
   ("religion", ["Religion"]),
   ("communications", ["Communications"])]

/-- `CourseRAG.search_courses_by_category`. -/
def search_courses_by_category (courses : List Course) (category : String) : List Course :=
  let target_categories :=
    ((category_map.find? (fun q => q.1 == pyLower category)).map Prod.snd).getD [category]
  courses.filter (fun c =>
    target_categories.any (fun cat => pyIn (pyLower cat) (pyLower c.category)))

/-- `career_keywords` of `search_courses_by_career_goal`. -/
def career_keywords : List (String × List String) :=
  [("doctor", ["biology", "chemistry", "anatomy", "physiology", "pre-med", "medical", "health"]),
   ("physician", ["biology", "chemistry", "anatomy", "physiology", "pre-med", "medical", "health"]),
   ("nurse", ["nursing", "anatomy", "physiology", "healthcare", "patient care", "medical"]),
   ("teacher", ["education", "psychology", "classroom management", "learning", "teaching"]),
   ("business", ["business", "management", "marketing", "finance", "entrepreneurship"]),
   ("entrepreneur", ["business", "management", "marketing", "finance", "entrepreneurship"]),
   ("software engineer", ["computer science", "programming", "algorithms", "data structures"]),
   ("programmer", ["computer science", "programming", "algorithms", "data structures"]),
   ("data scientist", ["statistics", "computer science", "mathematics", "data analysis"]),
   ("musician", ["music", "performance", "theory", "composition"]),
   ("artist", ["art", "studio", "creative", "visual arts"]),
   ("lawyer", ["english", "communication", "history", "critical thinking"]),
   ("researcher", ["research methods", "statistics", "methodology", "analysis"]),
   ("counselor", ["psychology", "developmental", "behavior", "social"]),
   ("therapist", ["psychology", "developmental", "behavior", "social"])]

/-- The keyword list used by the career pass: synonyms of every table key
occurring as a substring of the goal, else the goal's whitespace tokens. -/
def careerPassKeywords (career_goal : String) : List String :=
  let kws := career_keywords.foldl
    (fun acc q => if pyIn (pyLower q.1) (pyLower career_goal) then acc ++ q.2 else acc) []
  if kws = [] then pySplitWs (pyLower career_goal) else kws

/-- `CourseRAG.search_courses_by_career_goal`; the inner call
`search_courses_by_keywords(keywords)` uses the Python default `max_results=10`. -/
def search_courses_by_career_goal (courses : List Course) (career_goal : String) : List Course :=
  search_courses_by_keywords courses (careerPassKeywords career_goal) 10

/-- The level-pass universe of `get_recommended_courses`: the level-filtered
catalog, or the whole catalog when the education level is empty. -/
def levelPassUniverse (courses : List Course) (level : String) : List Course :=
  if level ≠ "" then search_courses_by_level courses level else courses

/-- The duplicate-removal walk of `get_recommended_courses`: keep a course
iff its id is unseen and it lies in the level-pass universe, accumulating
the kept courses and the seen ids. -/
def dedupPass (lc : List Course) : List Course → List Course → List String →
    List Course × List String
  | [], acc, seen => (acc, seen)
  | c :: rest, acc, seen =>
    if c.id ∉ seen ∧ c ∈ lc then dedupPass lc rest (acc ++ [c]) (c.id :: seen)
    else dedupPass lc rest acc seen

/-- The backfill loop of `get_recommended_courses`: add level-universe
courses with unseen ids while fewer than 12 are held. -/
def backfill : List Course → List Course → List String → List Course
  | [], unique, _ => unique
  | c :: rest, unique, seen =>
    if c.id ∉ seen ∧ unique.length < 12 then backfill rest (unique ++ [c]) (c.id :: seen)
    else backfill rest unique seen

/-- The tail of `get_recommended_courses`: deduplicate-and-intersect the
concatenated passes against the level universe, backfill from the level
universe when fewer than 8 remain, and truncate to 12. -/
def mergeAndCap (level_courses all_courses : List Course) : List Course :=
  let ded := dedupPass level_courses all_courses [] []
  let unique_courses :=
    if ded.1.length < 8 then backfill level_courses ded.1 ded.2 else ded.1
  unique_courses.take 12

/-- `CourseRAG.get_recommended_courses`. -/
def get_recommended_courses (courses : List Course) (p : UserProfile) : List Course :=
  let level_courses := levelPassUniverse courses p.education_level
  let interest_courses :=
    if p.interests ≠ [] then
      p.interests.flatMap (fun i => search_courses_by_keywords courses [i] 5)
    else level_courses
  let career_courses :=
    if p.career_goal ≠ "" then search_courses_by_career_goal courses p.career_goal else []
  let category_courses :=
    p.preferred_categories.flatMap (fun cat => search_courses_by_category courses cat)
  let all_courses := career_courses ++ interest_courses ++ category_courses
  mergeAndCap level_courses all_courses

end CourseRAG

/-- Raw user input as `process_user_input` receives it: `interests` may be a
string, a list, or some other value. -/
inductive InterestsInput where
  | str (s : String)
  | list (l : List String)
  | other
  deriving DecidableEq

/-- A raw input record (the keys of the `raw_input` dictionary). -/
structure RawInput where
  education_level : String
  interests : InterestsInput
  career_goal : String
  additional_info : String
  deriving DecidableEq

namespace UserProfileProcessor

/-- `level_map` of `_process_education_level`. -/
def ui_level_map : List (String × String) :=
  [("freshman", "1st year"), ("first year", "1st year"), ("1", "1st year"), ("1st", "1st year"),
   ("sophomore", "2nd year"), ("second year", "2nd year"), ("2", "2nd year"), ("2nd", "2nd year"),
   ("junior", "3rd year"), ("third year", "3rd year"), ("3", "3rd year"), ("3rd", "3rd year"),
   ("senior", "4th year"), ("fourth year", "4th year"), ("4", "4th year"), ("4th", "4th year"),
   ("graduate", "graduate"), ("grad", "graduate"), ("masters", "graduate"),
   ("master\x27s", "graduate"), ("phd", "graduate"), ("doctoral", "graduate")]

/-- `UserProfileProcessor._process_education_level`. -/
def process_education_level (level_input : String) : String :=
  if level_input = "" then ""
  else
    let level_clean := pyStrip (pyLower level_input)
    ((ui_level_map.find? (fun q => q.1 == level_clean)).map Prod.snd).getD level_input

/-- The splitter of `_process_interests` for string input: the regular
expression `[,;]|\sand\s`, scanned left to right (a delimiter is one of
`,` `;` or a whitespace-surrounded literal `and`, consuming one whitespace
character on each side). The first argument is fuel making the recursion
structural; every step consumes at least one character, so calling with
fuel equal to the input length (as `reSplit` does) never exhausts it. -/
def reSplitAux : Nat → List Char → List Char → List (List Char)
  | _, [], cur => [cur.reverse]
  | 0, l, cur => [cur.reverse ++ l]
  | fuel + 1, c :: cs, cur =>
    if c = ',' ∨ c = ';' then cur.reverse :: reSplitAux fuel cs []
    else if pySpace c then
      match cs with
      | 'a' :: 'n' :: 'd' :: c2 :: rest =>
        if pySpace c2 then cur.reverse :: reSplitAux fuel rest []
        else reSplitAux fuel cs (c :: cur)
      | _ => reSplitAux fuel cs (c :: cur)
    else reSplitAux fuel cs (c :: cur)

/-- `re.split(r'[,;]|\sand\s', s)`. -/
def reSplit (s : String) : List String :=
  (reSplitAux s.toList.length s.toList []).map (fun l => ⟨l⟩)

/-- The conversational lead-in phrases stripped from text-mode interests. -/
def interestLeadIns : List String :=
  ["i like", "i love", "i enjoy", "i am interested in", "interested in"]

/-- One alternative of `re.sub(r'^(...)\s+', '', s)`: the phrase must be a
prefix followed by at least one whitespace character, which is consumed
greedily. -/
def tryLeadIn (p : List Char) (s : List Char) : Option (List Char) :=
  if p.isPrefixOf s then
    match s.drop p.length with
    | c :: rest => if pySpace c then some ((c :: rest).dropWhile pySpace) else none
    | [] => none
  else none

/-- `re.sub(r'^(i like|i love|i enjoy|i am interested in|interested in)\s+', '', s)`:
the first alternative that matches (with trailing whitespace) is removed. -/
def cutLeadIn (s : String) : String :=
  ((interestLeadIns.findSome? (fun p => tryLeadIn p.toList s.toList)).map
    (fun l => (⟨l⟩ : String))).getD s

/-- `UserProfileProcessor._process_interests`. -/
def process_interests : InterestsInput → List String
  | .str s =>
    let interests := ((reSplit (pyLower s)).map pyStrip).filter (fun t => t ≠ "")
    let cleaned := interests.foldl (fun acc interest =>
      let i2 := pyStrip (cutLeadIn (pyLower interest))
      if 1 < i2.length then acc ++ [i2] else acc) []
    cleaned.take 15
  | .list l =>
    let interests := (l.map pyStrip).filter (fun t => t ≠ "")
    let cleaned := interests.foldl (fun acc interest => acc ++ [interest]) []
    cleaned.take 15
  | .other => []

/-- `prefixes_to_remove` of `_process_career_goal`. -/
def careerLeadIns : List String :=
  ["i want to be a", "i want to be an", "i want to become a", "i want to become an",
   "i would like to be a", "i would like to be an", "becoming a", "becoming an",
   "my goal is to be a", "my goal is to be an", "i plan to be a", "i plan to be an"]

/-- `UserProfileProcessor._process_career_goal`. -/
def process_career_goal (career_input : String) : String :=
  if career_input = "" then ""
  else
    let career_clean := pyStrip (pyLower career_input)
    match careerLeadIns.find? (fun pre => pre.toList.isPrefixOf career_clean.toList) with
    | some pre => pyStrip (strDrop pre.length career_clean)
    | none => career_clean

/-- `category_keywords` of `_derive_categories_from_interests`. -/
def category_keywords : List (String × List String) :=
  [("Business", ["business", "management", "marketing", "finance", "economics", "entrepreneurship"]),
   ("Natural Sciences", ["science", "biology", "chemistry", "physics", "environmental"]),
   ("Computer Science", ["computer", "programming", "technology", "coding", "software", "data"]),
   ("Health Sciences", ["health", "medicine", "medical", "nursing", "pharmacy", "therapy"]),
   ("Social Sciences", ["psychology", "sociology", "anthropology", "political", "social work"]),
   ("Humanities", ["history", "literature", "philosophy", "languages", "cultural studies"]),
   ("Fine Arts", ["art", "creative", "visual", "painting", "drawing", "design"]),
   ("Music", ["music", "musical", "instrument", "singing", "composition"]),
   ("Education", ["education", "teaching", "children", "learning", "classroom"]),
   ("Mathematics", ["math", "statistics", "calculus", "algebra", "numbers"]),
   ("Communications", ["communication", "media", "journalism", "writing", "public relations"])]

/-- `UserProfileProcessor._derive_categories_from_interests`: case-sensitive
substring match of each (lowercase) table keyword inside the processed
interest, first-discovery order, no duplicates. -/
def derive_categories_from_interests (ii : InterestsInput) : List String :=
  (process_interests ii).foldl (fun cats interest =>
    category_keywords.foldl (fun cats q =>
      if (q.2.any (fun kw => pyIn kw interest)) ∧ q.1 ∉ cats then cats ++ [q.1]
      else cats) cats) []

/-- `UserProfileProcessor.process_user_input`. -/
def process_user_input (raw : RawInput) : UserProfile :=
  { education_level := process_education_level raw.education_level
    interests := process_interests raw.interests
    career_goal := process_career_goal raw.career_goal
    preferred_categories := derive_categories_from_interests raw.interests
    additional_info := pyStrip raw.additional_info }

/-- The warning emitted for a missing education level. -/
def wLevel : String :=
  "Education level not specified. Recommendations will include all levels."

/-- The warning emitted for an empty interests list. -/
def wNoInterests : String :=
  "No interests specified. Consider adding some to get better recommendations."

/-- The warning emitted for more than 10 interests. -/
def wManyInterests : String :=
  "Many interests specified. Consider focusing on your top priorities."

/-- The warning emitted for a missing career goal. -/
def wCareer : String :=
  "Career goal not specified. Adding one can help tailor recommendations."

/-- `UserProfileProcessor.validate_profile`, returning the pair
(errors, warnings). -/
def validate_profile (p : UserProfile) : List String × List String :=
  let warnings :=
    (if p.education_level = "" then [wLevel] else []) ++
    (if p.interests = [] then [wNoInterests]
     else if 10 < p.interests.length then [wManyInterests] else []) ++
    (if p.career_goal = "" then [wCareer] else [])
  ([], warnings)

/-- The `summary_parts` list of `create_profile_summary`. -/
def summaryParts (p : UserProfile) : List String :=
  (if p.education_level ≠ "" then ["Education Level: " ++ pyTitle p.education_level] else []) ++
  (if p.interests ≠ [] then
    [("Interests: " ++
      (", ".intercalate (p.interests.take 5) ++
        (if 5 < p.interests.length then
          " (and " ++ toString (p.interests.length - 5) ++ " more)" else "")))]
   else []) ++
  (if p.career_goal ≠ "" then ["Career Goal: " ++ pyTitle p.career_goal] else []) ++
  (if p.additional_info ≠ "" ∧ 10 < p.additional_info.length then
    ["Additional Notes: " ++ strTake 100 p.additional_info ++ "..."] else [])

/-- `UserProfileProcessor.create_profile_summary`. -/
def create_profile_summary (p : UserProfile) : String :=
  if summaryParts p ≠ [] then "\n".intercalate (summaryParts p)
  else "Profile information not provided"

/-- `UserProfileProcessor.get_sample_inputs`. -/
def get_sample_inputs : RawInput :=
  { education_level := "2nd year"
    interests := .list ["computer science", "business", "data analysis"]
    career_goal := "software engineer"
    additional_info := "I am particularly interested in artificial intelligence and machine learning applications in business." }

/-- Re-reading a processed profile as raw input (the raw-input schema keeps
`education_level`, `interests` (as a list), `career_goal`, `additional_info`;
the derived `preferred_categories` field is dropped). -/
def profileToRaw (p : UserProfile) : RawInput :=
  { education_level := p.education_level
    interests := .list p.interests
    career_goal := p.career_goal
    additional_info := p.additional_info }

end UserProfileProcessor

namespace CourseRAG

theorem pyInsDesc_perm (x : Course × Nat) (l : List (Course × Nat)) :
    (pyInsDesc x l).Perm (x :: l) := by
  induction l with
  | nil => simp [pyInsDesc]
  | cons y ys ih =>
    by_cases h : x.2 < y.2
    · simp only [pyInsDesc, if_pos h]
      exact (ih.cons y).trans (List.Perm.swap x y ys)
    · simp [pyInsDesc, h]

theorem pySortDesc_perm (l : List (Course × Nat)) : (pySortDesc l).Perm l := by
  induction l with
  | nil => simp [pySortDesc]
  | cons x xs ih =>
    show (pyInsDesc x (pySortDesc xs)).Perm (x :: xs)
    exact (pyInsDesc_perm x _).trans (ih.cons x)

theorem mem_pyInsDesc {z x : Course × Nat} {l : List (Course × Nat)} :
    z ∈ pyInsDesc x l ↔ z = x ∨ z ∈ l := by
  simpa using (pyInsDesc_perm x l).mem_iff (a := z)

theorem pyInsDesc_pairwise (x : Course × Nat) {l : List (Course × Nat)}
    (h : l.Pairwise (fun a b => b.2 ≤ a.2)) :
    (pyInsDesc x l).Pairwise (fun a b => b.2 ≤ a.2) := by
  induction l with
  | nil => simp [pyInsDesc]
  | cons y ys ih =>
    rw [List.pairwise_cons] at h
    obtain ⟨hy, hys⟩ := h
    by_cases hlt : x.2 < y.2
    · simp only [pyInsDesc, if_pos hlt]
      rw [List.pairwise_cons]
      refine ⟨fun z hz => ?_, ih hys⟩
      rcases mem_pyInsDesc.mp hz with rfl | hz'
      · omega
      · exact hy z hz'
    · simp only [pyInsDesc, if_neg hlt]
      rw [List.pairwise_cons]
      refine ⟨fun z hz => ?_, List.Pairwise.cons hy hys⟩
      rcases List.mem_cons.mp hz with rfl | hz'
      · omega
      · have := hy z hz'; omega

theorem pySortDesc_pairwise (l : List (Course × Nat)) :
    (pySortDesc l).Pairwise (fun a b => b.2 ≤ a.2) := by
  induction l with
  | nil => simp [pySortDesc]
  | cons x xs ih => exact pyInsDesc_pairwise x ih

theorem pyInsDesc_filter (x : Course × Nat) (l : List (Course × Nat)) (s : Nat) :
    (pyInsDesc x l).filter (fun q => q.2 == s)
      = if x.2 = s then x :: l.filter (fun q => q.2 == s)
        else l.filter (fun q => q.2 == s) := by
  induction l with
  | nil => by_cases hx : x.2 = s <;> simp [pyInsDesc, hx]
  | cons y ys ih =>
    by_cases hlt : x.2 < y.2
    · simp only [pyInsDesc, if_pos hlt, List.filter_cons]
      by_cases hx : x.2 = s
      · have hy : ¬ y.2 = s := by omega
        simp [ih, hx, hy]
      · by_cases hy : y.2 = s <;> simp [ih, hx, hy]
    · simp only [pyInsDesc, if_neg hlt, List.filter_cons]
      by_cases hx : x.2 = s <;> simp [hx]

theorem pySortDesc_filter (l : List (Course × Nat)) (s : Nat) :
    (pySortDesc l).filter (fun q => q.2 == s) = l.filter (fun q => q.2 == s) := by
  induction l with
  | nil => rfl
  | cons x xs ih =>
    show (pyInsDesc x (pySortDesc xs)).filter _ = _
    rw [pyInsDesc_filter]
    by_cases hx : x.2 = s <;> simp [List.filter_cons, hx, ih]

/-- C2: the scored keyword search scores each course per expanded keyword
occurring in the combined search text (3 title / 2 description / 1
otherwise, embodied in `keywordScore`/`scoredList`), excludes score-0
courses, sorts the survivors by score descending with ties keeping catalog
order (for every score, the survivors with that score appear exactly in
catalog order), and truncates to the requested maximum; the function is
deterministic, so identical catalog and keywords yield identical ordering. -/
theorem C2_scored_keyword_search (courses : List Course) (keywords : List String) (m : Nat) :
    search_courses_by_keywords courses keywords m
        = ((pySortDesc (scoredList courses keywords)).take m).map Prod.fst
      ∧ (search_courses_by_keywords courses keywords m).length ≤ m
      ∧ (pySortDesc (scoredList courses keywords)).Perm (scoredList courses keywords)
      ∧ (pySortDesc (scoredList courses keywords)).Pairwise (fun a b => b.2 ≤ a.2)
      ∧ ∀ s : Nat, (pySortDesc (scoredList courses keywords)).filter (fun q => q.2 == s)
          = (scoredList courses keywords).filter (fun q => q.2 == s) := by
  refine ⟨rfl, ?_, pySortDesc_perm _, pySortDesc_pairwise _, fun s => pySortDesc_filter _ s⟩
  simp only [search_courses_by_keywords, List.length_map]
  exact List.length_take_le _ _

theorem dedupPass_spec (lc : List Course) :
    ∀ (rest acc : List Course) (seen : List String),
      (acc.map (fun c => c.id)).Nodup →
      (∀ a ∈ acc, a ∈ lc) →
      (∀ a ∈ acc, a.id ∈ seen) →
      ((dedupPass lc rest acc seen).1.map (fun c => c.id)).Nodup
        ∧ (∀ a ∈ (dedupPass lc rest acc seen).1, a ∈ lc)
        ∧ (∀ a ∈ (dedupPass lc rest acc seen).1, a.id ∈ (dedupPass lc rest acc seen).2) := by
  intro rest
  induction rest with
  | nil => intro acc seen h1 h2 h3; exact ⟨h1, h2, h3⟩
  | cons c rest ih =>
    intro acc seen h1 h2 h3
    by_cases hc : c.id ∉ seen ∧ c ∈ lc
    · rw [show dedupPass lc (c :: rest) acc seen
          = dedupPass lc rest (acc ++ [c]) (c.id :: seen) from by simp [dedupPass, hc]]
      apply ih
      · rw [List.map_append, List.nodup_append]
        refine ⟨h1, List.nodup_singleton _, ?_⟩
        intro x hx hx'
        simp only [List.map_cons, List.map_nil, List.mem_singleton] at hx'
        subst hx'
        obtain ⟨a, ha, hai⟩ := List.mem_map.mp hx
        exact hc.1 (hai ▸ h3 a ha)
      · intro a ha
        rcases List.mem_append.mp ha with ha' | ha'
        · exact h2 a ha'
        · simp only [List.mem_singleton] at ha'; subst ha'; exact hc.2
      · intro a ha
        rcases List.mem_append.mp ha with ha' | ha'
        · exact List.mem_cons_of_mem _ (h3 a ha')
        · simp only [List.mem_singleton] at ha'; subst ha'; exact List.mem_cons_self _ _
    · rw [show dedupPass lc (c :: rest) acc seen = dedupPass lc rest acc seen from by
          simp [dedupPass, hc]]
      exact ih acc seen h1 h2 h3

theorem backfill_spec (lc : List Course) :
    ∀ (l unique : List Course) (seen : List String),
      (unique.map (fun c => c.id)).Nodup →
      (∀ a ∈ unique, a ∈ lc) →
      (∀ a ∈ unique, a.id ∈ seen) →
      (∀ c ∈ l, c ∈ lc) →
      ((backfill l unique seen).map (fun c => c.id)).Nodup
        ∧ (∀ a ∈ backfill l unique seen, a ∈ lc) := by
  intro l
  induction l with
  | nil => intro unique seen h1 h2 _ _; exact ⟨h1, h2⟩
  | cons c rest ih =>
    intro unique seen h1 h2 h3 hl
    by_cases hc : c.id ∉ seen ∧ unique.length < 12
    · rw [show backfill (c :: rest) unique seen
          = backfill rest (unique ++ [c]) (c.id :: seen) from by simp [backfill, hc]]
      apply ih
      · rw [List.map_append, List.nodup_append]
        refine ⟨h1, List.nodup_singleton _, ?_⟩
        intro x hx hx'
        simp only [List.map_cons, List.map_nil, List.mem_singleton] at hx'
        subst hx'
        obtain ⟨a, ha, hai⟩ := List.mem_map.mp hx
        exact hc.1 (hai ▸ h3 a ha)
      · intro a ha
        rcases List.mem_append.mp ha with ha' | ha'
        · exact h2 a ha'
        · simp only [List.mem_singleton] at ha'; subst ha'
          exact hl a (List.mem_cons_self _ _)
      · intro a ha
        rcases List.mem_append.mp ha with ha' | ha'
        · exact List.mem_cons_of_mem _ (h3 a ha')
        · simp only [List.mem_singleton] at ha'; subst ha'; exact List.mem_cons_self _ _
      · intro c' hc'; exact hl c' (List.mem_cons_of_mem _ hc')
    · rw [show backfill (c :: rest) unique seen = backfill rest unique seen from by
          simp [backfill, hc]]
      exact ih unique seen h1 h2 h3 (fun c' hc' => hl c' (List.mem_cons_of_mem _ hc'))

theorem mergeAndCap_spec (lc all : List Course) :
    (mergeAndCap lc all).length ≤ 12
      ∧ ((mergeAndCap lc all).map (fun c => c.id)).Nodup
      ∧ ∀ c ∈ mergeAndCap lc all, c ∈ lc := by
  have hded := dedupPass_spec lc all [] [] (by simp) (by simp) (by simp)
  set ded := dedupPass lc all [] [] with hdedeq
  set unique_courses := if ded.1.length < 8 then backfill lc ded.1 ded.2 else ded.1
    with huniq
  have hmc : mergeAndCap lc all = unique_courses.take 12 := rfl
  have hfinal : (unique_courses.map (fun c => c.id)).Nodup ∧ ∀ a ∈ unique_courses, a ∈ lc := by
    rw [huniq]
    by_cases h8 : ded.1.length < 8
    · simp only [if_pos h8]
      exact backfill_spec lc lc ded.1 ded.2 hded.1 hded.2.1 hded.2.2 (fun c hc => hc)
    · simp only [if_neg h8]
      exact ⟨hded.1, hded.2.1⟩
  rw [hmc]
  refine ⟨List.length_take_le _ _, ?_, ?_⟩
  · have hsub : ((unique_courses.take 12).map (fun c => c.id)).Sublist
        (unique_courses.map (fun c => c.id)) :=
      (List.take_sublist 12 unique_courses).map _
    exact hfinal.1.sublist hsub
  · intro c hc
    exact hfinal.2 c (List.mem_of_mem_take hc)

/-- C1: for every profile and catalog, `get_recommended_courses` returns at
most 12 courses, with pairwise-distinct ids, all belonging to the level-pass
universe (the level-filtered catalog, or the whole catalog when the
education level is empty). -/
theorem C1_recommendation_bounds (courses : List Course) (p : UserProfile) :
    (get_recommended_courses courses p).length ≤ 12
      ∧ ((get_recommended_courses courses p).map (fun c => c.id)).Nodup
      ∧ ∀ c ∈ get_recommended_courses courses p,
          c ∈ levelPassUniverse courses p.education_level := by
  unfold get_recommended_courses
  exact mergeAndCap_spec _ _

def wCourseA : Course :=
  ⟨"CS101", "Intro to Programming", "Learn programming basics", "Computer Science",
   "1st year", ["programming", "software"]⟩

def wCourseB : Course :=
  ⟨"ART150", "Visual Arts Studio", "Make art", "Fine Arts", "1st year", []⟩

def wCatalog : List Course := [wCourseA, wCourseB]

def wEmptyProfile : UserProfile :=
  { education_level := "", interests := [], career_goal := "",
    preferred_categories := [], additional_info := "" }

theorem C1_recommendation_bounds_witness :
    wCourseA ∈ get_recommended_courses wCatalog wEmptyProfile
      ∧ wCourseA ∈ levelPassUniverse wCatalog wEmptyProfile.education_level :=
  ⟨by decide, (C1_recommendation_bounds wCatalog wEmptyProfile).2.2 wCourseA (by decide)⟩

/-- A course whose title contains the token "zzz", so it scores 3 for the
career goal "zzz" (which matches no career table key). -/
def zCourse (n : Nat) : Course := ⟨"z" ++ toString n, "zzz course", "", "", "", []⟩

/-- Eleven such courses: all score positively for the goal "zzz". -/
def zCatalog : List Course :=
  [zCourse 1, zCourse 2, zCourse 3, zCourse 4, zCourse 5, zCourse 6,
   zCourse 7, zCourse 8, zCourse 9, zCourse 10, zCourse 11]

/-- C3 counterexample: with eleven positively scoring courses, the career
pass returns only 10 results (the Python-default `max_results=10`), so the
eleventh positively scoring course is missing from the pass's result —
refuting the claim that the career pass is uncapped per call. -/
theorem C3_counterexample :
    0 < keywordScore (zCourse 11) (expandKeywords (careerPassKeywords "zzz"))
      ∧ zCourse 11 ∈ zCatalog
      ∧ (search_courses_by_career_goal zCatalog "zzz").length = 10
      ∧ zCourse 11 ∉ search_courses_by_career_goal zCatalog "zzz" := by
  refine ⟨by decide, by decide, by decide, by decide⟩

/-- C3 (amended): the career-goal pass runs the scored keyword search with
the Python-default per-call cap of 10 results; it never returns more than
10 courses, and every positively scoring course appears in the pass's
result only under the proviso that at most 10 courses score positively. -/
theorem C3_career_pass_capped (courses : List Course) (goal : String) :
    search_courses_by_career_goal courses goal
        = search_courses_by_keywords courses (careerPassKeywords goal) 10
      ∧ (search_courses_by_career_goal courses goal).length ≤ 10
      ∧ ∀ c ∈ courses,
          (scoredList courses (careerPassKeywords goal)).length ≤ 10 →
          0 < keywordScore c (expandKeywords (careerPassKeywords goal)) →
          c ∈ search_courses_by_career_goal courses goal := by
  refine ⟨rfl, ?_, ?_⟩
  · simp only [search_courses_by_career_goal, search_courses_by_keywords, List.length_map]
    exact List.length_take_le _ _
  · intro c hc hlen hpos
    have hmem : (c, keywordScore c (expandKeywords (careerPassKeywords goal)))
        ∈ scoredList courses (careerPassKeywords goal) := by
      apply List.mem_filter.mpr
      refine ⟨List.mem_map.mpr ⟨c, hc, rfl⟩, by simpa using hpos⟩
    have hperm := pySortDesc_perm (scoredList courses (careerPassKeywords goal))
    have hmem' := (hperm.mem_iff).mpr hmem
    have htake : (pySortDesc (scoredList courses (careerPassKeywords goal))).take 10
        = pySortDesc (scoredList courses (careerPassKeywords goal)) :=
      List.take_of_length_le (by rw [hperm.length_eq]; exact hlen)
    show c ∈ ((pySortDesc (scoredList courses (careerPassKeywords goal))).take 10).map Prod.fst
    rw [htake]
    exact List.mem_map.mpr ⟨_, hmem', rfl⟩

theorem C3_career_pass_capped_witness :
    zCourse 1 ∈ search_courses_by_career_goal [zCourse 1] "zzz" :=
  (C3_career_pass_capped [zCourse 1] "zzz").2.2 (zCourse 1) (by decide) (by decide) (by decide)

theorem dedupPass_fresh (lc : List Course) :
    ∀ (rest acc : List Course) (seen : List String),
      (rest.map (fun c => c.id)).Nodup →
      (∀ c ∈ rest, c.id ∉ seen) →
      (∀ c ∈ rest, c ∈ lc) →
      (dedupPass lc rest acc seen).1 = acc ++ rest
        ∧ ∀ x, x ∈ (dedupPass lc rest acc seen).2
            ↔ x ∈ seen ∨ x ∈ rest.map (fun c => c.id) := by
  intro rest
  induction rest with
  | nil => intro acc seen _ _ _; exact ⟨by simp [dedupPass], by simp [dedupPass]⟩
  | cons c rest ih =>
    intro acc seen h1 h2 h3
    have hcond : c.id ∉ seen ∧ c ∈ lc :=
      ⟨h2 c (List.mem_cons_self _ _), h3 c (List.mem_cons_self _ _)⟩
    rw [show dedupPass lc (c :: rest) acc seen
        = dedupPass lc rest (acc ++ [c]) (c.id :: seen) from by simp [dedupPass, hcond]]
    simp only [List.map_cons, List.nodup_cons] at h1
    have h2' : ∀ c' ∈ rest, c'.id ∉ (c.id :: seen) := by
      intro c' hc'
      simp only [List.mem_cons]
      push_neg
      exact ⟨fun heq => h1.1 (heq ▸ List.mem_map_of_mem _ hc'),
             h2 c' (List.mem_cons_of_mem _ hc')⟩
    obtain ⟨ha, hb⟩ := ih (acc ++ [c]) (c.id :: seen) h1.2 h2'
      (fun c' hc' => h3 c' (List.mem_cons_of_mem _ hc'))
    refine ⟨by rw [ha, List.append_assoc]; rfl, ?_⟩
    intro x
    rw [hb x]
    simp only [List.mem_cons, List.map_cons]
    tauto

theorem backfill_noop :
    ∀ (l unique : List Course) (seen : List String),
      (∀ c ∈ l, c.id ∈ seen) → backfill l unique seen = unique := by
  intro l
  induction l with
  | nil => intro unique seen _; rfl
  | cons c rest ih =>
    intro unique seen h
    have hcond : ¬(c.id ∉ seen ∧ unique.length < 12) := by
      intro hcon; exact hcon.1 (h c (List.mem_cons_self _ _))
    rw [show backfill (c :: rest) unique seen = backfill rest unique seen from by
        simp [backfill, hcond]]
    exact ih unique seen (fun c' hc' => h c' (List.mem_cons_of_mem _ hc'))

theorem mergeAndCap_self (lc : List Course) (h : (lc.map (fun c => c.id)).Nodup) :
    mergeAndCap lc lc = lc.take 12 := by
  obtain ⟨ha, hb⟩ := dedupPass_fresh lc lc [] [] h (by simp) (fun c hc => hc)
  rw [List.nil_append] at ha
  show (if (dedupPass lc lc [] []).1.length < 8
        then backfill lc (dedupPass lc lc [] []).1 (dedupPass lc lc [] []).2
        else (dedupPass lc lc [] []).1).take 12 = lc.take 12
  by_cases h8 : (dedupPass lc lc [] []).1.length < 8
  · rw [if_pos h8, ha]
    rw [backfill_noop lc lc _ (fun c hc => (hb c.id).mpr (Or.inr (List.mem_map_of_mem _ hc)))]
  · rw [if_neg h8, ha]

theorem levelPassUniverse_nodup_ids (courses : List Course) (lvl : String)
    (h : (courses.map (fun c => c.id)).Nodup) :
    ((levelPassUniverse courses lvl).map (fun c => c.id)).Nodup := by
  unfold levelPassUniverse
  split
  · exact h.sublist ((List.filter_sublist courses).map _)
  · exact h

/-- C9: when the profile has empty interests, the interest pass is replaced
by the level-pass universe; hence for a profile with empty interests, empty
career goal and no preferred categories, the recommendation is exactly the
first 12 courses of the level-pass universe in catalog order (given the
catalog invariant that ids are unique). -/
theorem C9_empty_profile_takes_universe (courses : List Course) (p : UserProfile)
    (hids : (courses.map (fun c => c.id)).Nodup)
    (hint : p.interests = []) (hcg : p.career_goal = "") (hcat : p.preferred_categories = []) :
    get_recommended_courses courses p
      = (levelPassUniverse courses p.education_level).take 12 := by
  have h : get_recommended_courses courses p
      = mergeAndCap (levelPassUniverse courses p.education_level)
          (levelPassUniverse courses p.education_level) := by
    unfold get_recommended_courses
    simp [hint, hcg, hcat]
  rw [h]
  exact mergeAndCap_self _ (levelPassUniverse_nodup_ids courses p.education_level hids)

theorem C9_empty_profile_takes_universe_witness :
    get_recommended_courses wCatalog wEmptyProfile
      = (levelPassUniverse wCatalog wEmptyProfile.education_level).take 12 :=
  C9_empty_profile_takes_universe wCatalog wEmptyProfile (by decide) rfl rfl rfl

end CourseRAG

namespace UserProfileProcessor

/-- A profile whose `additional_info` is non-empty but no longer than 10
characters. -/
def wShortInfoProfile : UserProfile :=
  { education_level := "", interests := [], career_goal := "",
    preferred_categories := [], additional_info := "tiny" }

/-- C4 counterexample: `additional_info = "tiny"` is non-empty, yet the
summary is the bare fallback string and does not contain the info — the
source only shows additional info when its length exceeds 10 characters,
refuting "whenever additional_info is non-empty". -/
theorem C4_counterexample :
    wShortInfoProfile.additional_info ≠ ""
      ∧ create_profile_summary wShortInfoProfile = "Profile information not provided"
      ∧ pyIn "tiny" "Profile information not provided" = false := by
  refine ⟨by decide, by decide, by decide⟩

/-- C4 (amended): `create_profile_summary` joins, with newlines, the
title-cased education level, the first 5 interests with an "(and N more)"
suffix when there are more than 5, the title-cased career goal, and — only
when `additional_info` has strictly more than 10 characters — the
additional info truncated to its first 100 characters followed by "...";
when every part is absent it returns the not-provided fallback. -/
theorem C4_summary_shape (p : UserProfile) :
    create_profile_summary p =
      (let parts :=
        (if p.education_level ≠ "" then
          ["Education Level: " ++ pyTitle p.education_level] else []) ++
        (if p.interests ≠ [] then
          [("Interests: " ++
            (", ".intercalate (p.interests.take 5) ++
              (if 5 < p.interests.length then
                " (and " ++ toString (p.interests.length - 5) ++ " more)" else "")))]
         else []) ++
        (if p.career_goal ≠ "" then ["Career Goal: " ++ pyTitle p.career_goal] else []) ++
        (if 10 < p.additional_info.length then
          ["Additional Notes: " ++ strTake 100 p.additional_info ++ "..."] else [])
       if parts ≠ [] then "\n".intercalate parts else "Profile information not provided") := by
  have hiff : (p.additional_info ≠ "" ∧ 10 < p.additional_info.length)
      ↔ 10 < p.additional_info.length := by
    constructor
    · exact And.right
    · intro h
      refine ⟨fun he => ?_, h⟩
      rw [he] at h
      simp at h
  simp only [create_profile_summary, summaryParts, hiff]

/-- C6: validation never rejects a profile — the errors list is always
empty — and each of the four warnings is present exactly when its condition
holds (empty education level, empty interests, more than 10 interests,
empty career goal). -/
theorem C6_validation_only_warns (p : UserProfile) :
    (validate_profile p).1 = []
      ∧ (wLevel ∈ (validate_profile p).2 ↔ p.education_level = "")
      ∧ (wNoInterests ∈ (validate_profile p).2 ↔ p.interests = [])
      ∧ (wManyInterests ∈ (validate_profile p).2 ↔ 10 < p.interests.length)
      ∧ (wCareer ∈ (validate_profile p).2 ↔ p.career_goal = "") := by
  unfold validate_profile
  by_cases h1 : p.education_level = "" <;>
  by_cases h2 : p.interests = [] <;>
  by_cases h3 : 10 < p.interests.length <;>
  by_cases h4 : p.career_goal = "" <;>
  simp_all [wLevel, wNoInterests, wManyInterests, wCareer]

/-- C10: category derivation tests case-sensitive containment of lowercase
keywords: the list-supplied interest "Computer Science" (case preserved by
normalization) derives no category, while the same text supplied as a
string (lowercased by normalization) derives its categories. -/
theorem C10_category_derivation_case_sensitive :
    derive_categories_from_interests (.list ["Computer Science"]) = []
      ∧ derive_categories_from_interests (.str "Computer Science")
          = ["Natural Sciences", "Computer Science"] := by
  refine ⟨by decide, by decide⟩

/-- C8: processing the canonical sample input and feeding the resulting
profile back through `process_user_input` (as raw input, dropping the
derived `preferred_categories` field) reproduces the profile exactly —
normalization is idempotent on the sample. -/
theorem C8_sample_roundtrip :
    process_user_input (profileToRaw (process_user_input get_sample_inputs))
      = process_user_input get_sample_inputs := by decide

end UserProfileProcessor

theorem flatMap_nil_fun {α β : Type} (l : List α) :
    (l.flatMap (fun _ => ([] : List β))) = [] := by
  induction l with
  | nil => rfl
  | cons a l ih => simp [ih]

theorem char_toNat_ofNat (n : Nat) (h : Nat.isValidChar n) : (Char.ofNat n).toNat = n := by
  unfold Char.ofNat
  rw [dif_pos h]
  rfl

theorem lowerChar_idem (c : Char) : lowerChar (lowerChar c) = lowerChar c := by
  unfold lowerChar
  by_cases h : 65 ≤ c.toNat ∧ c.toNat ≤ 90
  · rw [if_pos h]
    have hv : Nat.isValidChar (c.toNat + 32) := Or.inl (by omega)
    rw [if_neg (by rw [char_toNat_ofNat _ hv]; omega)]
  · rw [if_neg h, if_neg h]

theorem lowered_of_mem_pyLower {s : String} {c : Char} (hc : c ∈ (pyLower s).toList) :
    lowerChar c = c := by
  have heq : (pyLower s).toList = s.toList.map lowerChar := rfl
  rw [heq] at hc
  obtain ⟨c0, _, rfl⟩ := List.mem_map.mp hc
  exact lowerChar_idem c0

theorem pyLower_fix {s : String} (h : ∀ c ∈ s.toList, lowerChar c = c) : pyLower s = s := by
  unfold pyLower
  have heq : s.toList.map lowerChar = s.toList := by
    calc s.toList.map lowerChar = s.toList.map id := List.map_congr_left h
    _ = s.toList := List.map_id _
  rw [heq]
  rfl

theorem mem_pyStrip {s : String} {c : Char} (hc : c ∈ (pyStrip s).toList) : c ∈ s.toList := by
  have hc' : c ∈ ((s.toList.dropWhile pySpace).reverse.dropWhile pySpace).reverse := hc
  rw [List.mem_reverse] at hc'
  have h1 := (List.dropWhile_sublist _).subset hc'
  rw [List.mem_reverse] at h1
  exact (List.dropWhile_sublist _).subset h1

theorem tryLeadIn_sublist {p l res : List Char}
    (h : UserProfileProcessor.tryLeadIn p l = some res) : res.Sublist l := by
  unfold UserProfileProcessor.tryLeadIn at h
  split at h
  · split at h
    next c rest heq =>
      split at h
      · injection h with h'
        subst h'
        have hdrop : (c :: rest).Sublist l := heq ▸ List.drop_sublist _ _
        exact (List.dropWhile_sublist _).trans hdrop
      · exact absurd h (by simp)
    next heq => exact absurd h (by simp)
  · exact absurd h (by simp)

theorem mem_cutLeadIn {s : String} {c : Char}
    (hc : c ∈ (UserProfileProcessor.cutLeadIn s).toList) : c ∈ s.toList := by
  unfold UserProfileProcessor.cutLeadIn at hc
  cases hfind : UserProfileProcessor.interestLeadIns.findSome?
      (fun p => UserProfileProcessor.tryLeadIn p.toList s.toList) with
  | none => rw [hfind] at hc; exact hc
  | some l =>
    rw [hfind] at hc
    simp only [Option.map_some', Option.getD_some] at hc
    obtain ⟨p, _, htry⟩ := List.exists_of_findSome?_eq_some hfind
    exact (tryLeadIn_sublist htry).subset hc

theorem processed_token_lowered (interest : String) :
    pyLower (pyStrip (UserProfileProcessor.cutLeadIn (pyLower interest)))
      = pyStrip (UserProfileProcessor.cutLeadIn (pyLower interest)) := by
  apply pyLower_fix
  intro c hc
  exact lowered_of_mem_pyLower (mem_cutLeadIn (mem_pyStrip hc))

theorem foldl_append_singleton {α : Type} : ∀ (l acc : List α),
    l.foldl (fun acc i => acc ++ [i]) acc = acc ++ l := by
  intro l
  induction l with
  | nil => intro acc; simp
  | cons a l ih => intro acc; simp [List.foldl_cons, ih]

theorem mem_foldl_filterMap {α β : Type} (f : α → β) (P : β → Prop) [DecidablePred P] :
    ∀ (l : List α) (init : List β) (x : β),
      x ∈ l.foldl (fun acc i => if P (f i) then acc ++ [f i] else acc) init →
      x ∈ init ∨ ∃ i, i ∈ l ∧ x = f i ∧ P (f i) := by
  intro l
  induction l with
  | nil => intro init x hx; exact Or.inl hx
  | cons a l ih =>
    intro init x hx
    simp only [List.foldl_cons] at hx
    rcases ih _ x hx with h | h
    · by_cases hp : P (f a)
      · rw [if_pos hp] at h
        rcases List.mem_append.mp h with h' | h'
        · exact Or.inl h'
        · simp only [List.mem_singleton] at h'
          exact Or.inr ⟨a, List.mem_cons_self _ _, h', hp⟩
      · rw [if_neg hp] at h
        exact Or.inl h
    · obtain ⟨i, hi, hrest⟩ := h
      exact Or.inr ⟨i, List.mem_cons_of_mem _ hi, hrest⟩

namespace UserProfileProcessor

/-- C5: interests supplied as a list are each coerced to a trimmed string
with case preserved (empty-after-trim entries dropped) — "AI/ML" stays
"AI/ML"; interests supplied as a single string are lowercased, split on
comma/semicolon/the word "and", stripped of conversational lead-ins, with
single-character tokens dropped (every surviving token has length > 1 and
is already lowercase); in all modes the result has at most 15 entries. -/
theorem C5_interest_normalization :
    (∀ l : List String, process_interests (.list l)
        = ((l.map pyStrip).filter (fun t => t ≠ "")).take 15)
      ∧ process_interests (.list ["AI/ML"]) = ["AI/ML"]
      ∧ (∀ s : String, ∀ x ∈ process_interests (.str s), 1 < x.length ∧ pyLower x = x)
      ∧ (∀ ii : InterestsInput, (process_interests ii).length ≤ 15)
      ∧ process_interests (.str "I am interested in Math and I like Science, history")
          = ["math", "science", "history"] := by
  refine ⟨?_, by decide, ?_, ?_, by decide⟩
  · intro l
    show (((l.map pyStrip).filter (fun t => t ≠ "")).foldl
        (fun acc i => acc ++ [i]) []).take 15 = _
    rw [foldl_append_singleton]
    rfl
  · intro s x hx
    have hx' := List.mem_of_mem_take hx
    rcases mem_foldl_filterMap (fun i => pyStrip (cutLeadIn (pyLower i)))
        (fun y => 1 < y.length) _ [] x hx' with h | ⟨i, _, rfl, hP⟩
    · exact absurd h (List.not_mem_nil x)
    · exact ⟨hP, processed_token_lowered i⟩
  · intro ii
    cases ii with
    | str s => exact List.length_take_le _ _
    | list l => exact List.length_take_le _ _
    | other => exact Nat.zero_le _

theorem C5_interest_normalization_witness :
    1 < ("math" : String).length ∧ pyLower "math" = "math" :=
  C5_interest_normalization.2.2.1
    "I am interested in Math and I like Science, history" "math" (by decide)

end UserProfileProcessor

/-- C7: on an empty catalog every recommendation is empty (a valid
non-error outcome), and for the all-empty profile validation returns no
errors and only the three missing-field warnings while the summary is the
not-provided fallback. -/
theorem C7_empty_catalog_and_empty_profile :
    (∀ p : UserProfile, CourseRAG.get_recommended_courses [] p = [])
      ∧ UserProfileProcessor.validate_profile CourseRAG.wEmptyProfile
          = ([], [UserProfileProcessor.wLevel, UserProfileProcessor.wNoInterests,
                  UserProfileProcessor.wCareer])
      ∧ UserProfileProcessor.create_profile_summary CourseRAG.wEmptyProfile
          = "Profile information not provided" := by
  refine ⟨?_, by decide, by decide⟩
  intro p
  unfold CourseRAG.get_recommended_courses
  simp only [CourseRAG.levelPassUniverse, CourseRAG.search_courses_by_level,
    CourseRAG.search_courses_by_career_goal, CourseRAG.search_courses_by_keywords,
    CourseRAG.search_courses_by_category, CourseRAG.scoredList, CourseRAG.pySortDesc,
    List.map_nil, List.filter_nil, List.foldr_nil, List.take_nil, flatMap_nil_fun,
    ite_self, List.nil_append, List.append_nil]
  rfl
